import Mathlib

/-!
Verification of the ScienceRAG ingest/chat frontend (repository `bio_hack`)
against its natural-language specification.

The repository ships the Next.js frontend; the FastAPI backend that drives
the ingest pipeline is not part of the source tree, so backend behaviour is
modelled from the specification where a claim needs it (such definitions are
marked `Modelled from the spec:`).  All other definitions are shallow
embeddings of the TypeScript in `frontend/src`.
-/

/-! ## JSON-shaped progress objects and the polling client's reads

The polling client (`pollJob` in `frontend/src/app/page.tsx`) receives the
`GET /api/ingest/{job_id}` response and reads numeric fields out of the
`progress.papers`, `progress.chunks` and `progress.embeddings` sub-objects
by name.  We model each sub-object as an association list from field names
to rational values (JS numbers), where a missing field reads as `none`
(JS `undefined`). -/

def lookupField (obj : List (String × ℚ)) (name : String) : Option ℚ :=
  (obj.find? (fun kv => kv.1 == name)).map (fun kv => kv.2)

structure ProgressJson where
  papers : List (String × ℚ)
  chunks : List (String × ℚ)
  embeddings : List (String × ℚ)
  deriving DecidableEq

/-- The `currentSearch` record the client builds from one polled progress
object (`page.tsx` lines 408–423, `setLiveStats` update inside `pollJob`). -/
structure CurrentSearch where
  openalexCount : Option ℚ
  semanticScholarCount : Option ℚ
  newPapers : Option ℚ
  chunksCreated : Option ℚ
  duplicatesRemoved : Option ℚ
  embeddingsCompleted : Option ℚ
  embeddingsTotal : Option ℚ
  deriving DecidableEq

/-- Shallow embedding of the field reads in `pollJob` (`page.tsx:413-421`):
`openalexCount: progress.papers.openalex_found`,
`semanticScholarCount: progress.papers.semantic_scholar_found`,
`newPapers: progress.papers.papers_stored`,
`chunksCreated: progress.chunks.total_created`,
`duplicatesRemoved: progress.papers.duplicates_removed`,
`embeddingsCompleted: progress.embeddings.completed`,
`embeddingsTotal: progress.embeddings.total`. -/
def currentSearchOfProgress (p : ProgressJson) : CurrentSearch where
  openalexCount := lookupField p.papers "openalex_found"
  semanticScholarCount := lookupField p.papers "semantic_scholar_found"
  newPapers := lookupField p.papers "papers_stored"
  chunksCreated := lookupField p.chunks "total_created"
  duplicatesRemoved := lookupField p.papers "duplicates_removed"
  embeddingsCompleted := lookupField p.embeddings "completed"
  embeddingsTotal := lookupField p.embeddings "total"

/-- Modelled from the spec: the backend is not in the source tree, so the
documented `GET /api/ingest/{job_id}` progress example is taken verbatim
from the spec (§6) and the repository README: papers counters named
`openalex_found`, `semantic_scholar_found`, `unique_papers`; a chunks
counter `total_created`; embeddings counters `completed`, `total`,
`percent` (values 47, 32, 61, 183, 120, 183, 65.6). -/
def documentedProgressExample : ProgressJson where
  papers := [("openalex_found", 47), ("semantic_scholar_found", 32), ("unique_papers", 61)]
  chunks := [("total_created", 183)]
  embeddings := [("completed", 120), ("total", 183), ("percent", (656 : ℚ) / 10)]

/-- A progress object in the shape the polling client actually reads:
`papers.{openalex_found, semantic_scholar_found, papers_stored,
duplicates_removed}`, `chunks.total_created`,
`embeddings.{completed, total}`. -/
def clientShapedProgress (oa s2 stored dups chunkCount emb tot : ℚ) : ProgressJson where
  papers := [("openalex_found", oa), ("semantic_scholar_found", s2),
             ("papers_stored", stored), ("duplicates_removed", dups)]
  chunks := [("total_created", chunkCount)]
  embeddings := [("completed", emb), ("total", tot)]

/-! ## Citation assignment (`generateRAGSynthesis`, `page.tsx:255-264`)

The synthesis handler turns the `citations` array of the `/api/rag/ask`
response into the `Source` list shown in the answer, assigning
`citationId: idx + 1` in array order. -/

structure Source where
  citationId : Nat
  paperId : String
  title : String
  authors : List String
  year : Option Int
  venue : Option String
  doi : Option String
  url : Option String
  deriving DecidableEq

structure RAGCitation where
  paper_id : String
  title : String
  authors : List String
  year : Option Int
  deriving DecidableEq

/-- One element of the `ragSources` map in `generateRAGSynthesis`:
`{citationId: idx + 1, paperId: citation.paper_id, title, authors, year,
venue: null, doi: null, url: null}`. -/
def ragSourceOfCitation (idx : Nat) (c : RAGCitation) : Source where
  citationId := idx + 1
  paperId := c.paper_id
  title := c.title
  authors := c.authors
  year := c.year
  venue := none
  doi := none
  url := none

def ragSourcesFrom (idx : Nat) : List RAGCitation → List Source
  | [] => []
  | c :: rest => ragSourceOfCitation idx c :: ragSourcesFrom (idx + 1) rest

/-- `ragResponse.citations.map((citation, idx) => ({citationId: idx + 1, ...}))`. -/
def ragSourcesOfCitations (cs : List RAGCitation) : List Source :=
  ragSourcesFrom 0 cs

/-- `sources.find(s => s.citationId === num)` — the lookup both the citation
pills and the `CitationTooltip` wrapper use in
`renderContentWithCitations` (`AssistantResponse.tsx:468`). -/
def findSource (sources : List Source) (n : Nat) : Option Source :=
  sources.find? (fun s => s.citationId == n)

/-! ## Citation marker parsing and rendering
(`renderContentWithCitations`, `AssistantResponse.tsx:457-490`, and the
older `renderContent` at `AssistantResponse.tsx:523-544`)

The answer text is split on the regex `(\[\d+\])`: each maximal substring
of the form `[digits]` becomes a citation marker, everything else stays
plain text.  We embed the split as a left-to-right scan: `splitLoop`
carries the reversed plain-text accumulator and, once a `[` has been seen,
the reversed digit run read so far. -/

def jsIsDigit (c : Char) : Bool := '0' ≤ c && c ≤ '9'

inductive AnswerPart where
  | text : List Char → AnswerPart
  | citation : List Char → AnswerPart
  deriving DecidableEq

def flushText (acc : List Char) : List AnswerPart :=
  if acc = [] then [] else [AnswerPart.text acc.reverse]

def splitLoop : List Char → List Char → Option (List Char) → List AnswerPart
  | [], textAcc, none => flushText textAcc
  | [], textAcc, some ds => flushText (ds ++ '[' :: textAcc)
  | c :: rest, textAcc, none =>
      if c = '[' then splitLoop rest textAcc (some [])
      else splitLoop rest (c :: textAcc) none
  | c :: rest, textAcc, some ds =>
      if jsIsDigit c then splitLoop rest textAcc (some (c :: ds))
      else if c = ']' then
        if ds = [] then splitLoop rest (']' :: '[' :: textAcc) none
        else flushText textAcc ++ AnswerPart.citation ds.reverse :: splitLoop rest [] none
      else if c = '[' then splitLoop rest (ds ++ '[' :: textAcc) (some [])
      else splitLoop rest (c :: ds ++ '[' :: textAcc) none

/-- `text.split(/(\[\d+\])/g)`, keeping the captured markers. -/
def splitCitations (l : List Char) : List AnswerPart :=
  splitLoop l [] none

/-- Reassemble the split parts into the original character stream. -/
def joinParts (parts : List AnswerPart) : List Char :=
  parts.flatMap fun p =>
    match p with
    | AnswerPart.text s => s
    | AnswerPart.citation ds => '[' :: ds ++ [']']

/-- `parseInt(match[1])` on a digit run. -/
def digitsToNat (ds : List Char) : Nat :=
  ds.foldl (fun acc c => acc * 10 + (c.toNat - '0'.toNat)) 0

/-- The fallback source `renderContentWithCitations` substitutes when no
source carries the marker's number:
`{citationId: num, paperId: '', title: '', authors: [], year: null,
venue: null, doi: null, url: null}` (`AssistantResponse.tsx:472`). -/
def placeholderSource (n : Nat) : Source where
  citationId := n
  paperId := ""
  title := ""
  authors := []
  year := none
  venue := none
  doi := none
  url := none

/-- What one split part renders to: a plain span, or a citation pill
showing the number `n` wrapped in a tooltip for its source. -/
inductive Rendered where
  | span : List Char → Rendered
  | pill : Nat → Source → Rendered
  deriving DecidableEq

def renderPart (sources : List Source) : AnswerPart → Rendered
  | AnswerPart.text s => Rendered.span s
  | AnswerPart.citation ds =>
      let n := digitsToNat ds
      Rendered.pill n ((findSource sources n).getD (placeholderSource n))

/-- `renderContentWithCitations(text, sources, ...)`. -/
def renderContentWithCitations (sources : List Source) (l : List Char) : List Rendered :=
  (splitCitations l).map (renderPart sources)

/-! ## Chat input submission (`FloatingInput.tsx:31-44`)

`handleSubmit` trims the textarea value and submits only when the trimmed
string is truthy (non-empty) and no request is in flight, then clears the
input. -/

/-- The whitespace class JS `String.prototype.trim` removes (the common
members: space, tab, LF, CR, vertical tab, form feed, NBSP). -/
def jsWhitespace (c : Char) : Bool :=
  c = ' ' || c = '\t' || c = '\n' || c = '\r' || c = '\x0b' || c = '\x0c' || c = '\u00A0'

/-- `value.trim()`. -/
def jsTrim (l : List Char) : List Char :=
  ((l.dropWhile jsWhitespace).reverse.dropWhile jsWhitespace).reverse

/-- `FloatingInput.handleSubmit`: returns `some (submittedQuery, newValue)`
when `onSubmit` fires, `none` when nothing happens. -/
def floatingInputSubmit (value : List Char) (isLoading : Bool) :
    Option (List Char × List Char) :=
  let trimmed := jsTrim value
  if !trimmed.isEmpty && !isLoading then some (trimmed, []) else none

/-! ## Ingest request construction (`handleSubmit`, `page.tsx:337-350`) -/

/-- The persisted settings object read from
`localStorage.getItem('sciencerag-settings')`; a field absent from the
stored JSON is `none`. -/
structure Settings where
  papersPerQuery : Option Nat
  openalexEnabled : Option Bool
  semanticScholarEnabled : Option Bool
  deriving DecidableEq

/-- The fallback `{papersPerQuery: 30, openalexEnabled: true,
semanticScholarEnabled: true}` used when nothing is saved. -/
def defaultSettings : Settings where
  papersPerQuery := some 30
  openalexEnabled := some true
  semanticScholarEnabled := some true

/-- `page.tsx:340-342`: a source is pushed unless its flag `!== false` fails,
i.e. unless the flag is literally `false`. -/
def selectedSources (s : Settings) : List String :=
  (if s.openalexEnabled ≠ some false then ["openalex"] else []) ++
  (if s.semanticScholarEnabled ≠ some false then ["semantic_scholar"] else [])

structure IngestRequestBody where
  query : String
  sources : Option (List String)
  max_results_per_source : Nat
  deriving DecidableEq

/-- The body passed to `api.startIngestJob` (`page.tsx:344-348`):
`{query, sources: sources.length > 0 ? sources : undefined,
max_results_per_source: settings.papersPerQuery || 30}` (`||` treats the
JS-falsy `0` as absent). -/
def buildIngestRequest (query : String) (saved : Option Settings) : IngestRequestBody :=
  let settings := saved.getD defaultSettings
  let sources := selectedSources settings
  { query := query
    sources := if sources.length > 0 then some sources else none
    max_results_per_source :=
      match settings.papersPerQuery with
      | some n => if n = 0 then 30 else n
      | none => 30 }

structure StartIngestResponse where
  job_id : String
  deriving DecidableEq

/-- `setCurrentJobId(startResponse.job_id)` (`page.tsx:350`). -/
def jobIdOfStartResponse (r : StartIngestResponse) : String := r.job_id

/-! ## Embedding-percentage computations (C6)

Three places compute `Math.round((completed / total) * 100)`.  For
naturals `c ≤ t`, `Math.round(x)` is `⌊x + 1/2⌋`, and
`⌊c·100/t + 1/2⌋ = (2·c·100 + t) / (2·t)` in integer division. -/

def roundHalfUp (num den : Nat) : Nat := (2 * num + den) / (2 * den)

/-- `page.tsx:450-452`: `progress.embeddings.total > 0 ?
Math.round((progress.embeddings.completed / progress.embeddings.total) * 100) : 0`. -/
def embeddingProgressPct (completed total : Nat) : Nat :=
  if 0 < total then roundHalfUp (completed * 100) total else 0

/-- `LiveStatsSidebar.tsx:43-45`: `stats.totalChunks > 0 ?
Math.round((stats.embeddedChunks / stats.totalChunks) * 100) : 0`. -/
def sidebarEmbeddingPercent (embedded totalChunks : Nat) : Nat :=
  if 0 < totalChunks then roundHalfUp (embedded * 100) totalChunks else 0

/-- `LiveStatsSidebar.tsx:119-129`: the progress bar renders only when
`typeof embeddingsTotal === 'number' && embeddingsTotal > 0`, with percent
`Math.round(((embeddingsCompleted || 0) / embeddingsTotal) * 100)`;
`none` means the bar is not rendered at all. -/
def sidebarBarPercent (completedOpt : Option Nat) (totalOpt : Option Nat) : Option Nat :=
  match totalOpt with
  | some t => if 0 < t then some (roundHalfUp (completedOpt.getD 0 * 100) t) else none
  | none => none

/-! ## Job status lifecycle (C5) -/

inductive JobStage where
  | queued | parsing | fetching | storing | chunking | embedding | completed | failed
  deriving DecidableEq, Fintype

def stageRank : JobStage → Nat
  | .queued => 0
  | .parsing => 1
  | .fetching => 2
  | .storing => 3
  | .chunking => 4
  | .embedding => 5
  | .completed => 6
  | .failed => 7

/-- Modelled from the spec: the backend job state machine is not in the
source tree; its transition table follows §4.1 —
`queued → parsing → fetching → storing → chunking → embedding → completed`,
any non-terminal state may transition to `failed`, and
`completed`/`failed` are terminal. -/
def stageStep : JobStage → JobStage → Bool
  | .queued, .parsing => true
  | .parsing, .fetching => true
  | .fetching, .storing => true
  | .storing, .chunking => true
  | .chunking, .embedding => true
  | .embedding, .completed => true
  | .completed, _ => false
  | .failed, _ => false
  | _, .failed => true
  | _, _ => false

/-- A sequence of statuses a single job exhibits over its lifetime, each
consecutive pair a legal transition. -/
def validChain : List JobStage → Bool
  | [] => true
  | [_] => true
  | a :: b :: r => stageStep a b && validChain (b :: r)

/-- The client's terminal test (`page.tsx:462`):
`status.status === 'completed' || status.status === 'failed'`. -/
def isTerminalStatus (s : String) : Bool := s == "completed" || s == "failed"

structure PollLoopState where
  pollingActive : Bool
  currentJobId : Option String
  isLoading : Bool
  deriving DecidableEq

/-- What one poll iteration does to the loop state (`page.tsx:462-519`):
on a terminal status it clears the poll interval, sets `isLoading` to
false and clears `currentJobId`; otherwise the loop state is untouched. -/
def pollTerminalTransition (st : PollLoopState) (statusStr : String) : PollLoopState :=
  if isTerminalStatus statusStr then
    { pollingActive := false, currentJobId := none, isLoading := false }
  else st

/-! ## Source aggregation outcome (C4) -/

structure SourceOutcome where
  source : String
  succeeded : Bool
  errMsg : String
  deriving DecidableEq

structure JobResult where
  finalStage : JobStage
  degraded : List String
  error : Option String
  deriving DecidableEq

/-- Modelled from the spec: the aggregator/tracker failure policy is not in
the source tree; per §4.1, if at least one requested source succeeds the
job proceeds to `completed` and each failed source is recorded as degraded
in `stageDetail`; only when every requested source fails does the job go
to `failed` with an aggregated error. -/
def aggregateOutcome (outcomes : List SourceOutcome) : JobResult :=
  let failedSources := (outcomes.filter fun o => !o.succeeded).map fun o => o.source
  if outcomes.any fun o => o.succeeded then
    { finalStage := JobStage.completed, degraded := failedSources, error := none }
  else
    { finalStage := JobStage.failed, degraded := failedSources,
      error := some (String.intercalate "; " (outcomes.map fun o => o.errMsg)) }

/-! ## Persisted pipeline state and progress snapshots (C3) -/

/-- Modelled from the spec: the pipeline's persisted rows (per-source
fetched papers, stored papers, dropped duplicates, chunks, planned and
completed embeddings) plus accumulated elapsed time.  Counters are always
computed from these persisted rows, never from in-flight deltas (§5). -/
structure Store where
  openalexRows : List Nat
  s2Rows : List Nat
  storedRows : List Nat
  dupRows : List Nat
  chunkRows : List Nat
  plannedRows : List Nat
  embeddedRows : List Nat
  elapsedMs : Nat
  deriving DecidableEq

inductive IngestEvent where
  | fetchOpenalex (ids : List Nat)
  | fetchS2 (ids : List Nat)
  | storePaper (id : Nat)
  | dropDuplicate (id : Nat)
  | createChunks (ids : List Nat)
  | planEmbeddings (ids : List Nat)
  | completeEmbedding (id : Nat)
  | tick (ms : Nat)
  deriving DecidableEq

/-- Modelled from the spec: every state-changing pipeline event appends
rows to the persisted store (or advances the clock); nothing is removed
within a job's lifetime. -/
def applyEvent (s : Store) (e : IngestEvent) : Store :=
  match e with
  | .fetchOpenalex ids => { s with openalexRows := s.openalexRows ++ ids }
  | .fetchS2 ids => { s with s2Rows := s.s2Rows ++ ids }
  | .storePaper pid => { s with storedRows := s.storedRows ++ [pid] }
  | .dropDuplicate pid => { s with dupRows := s.dupRows ++ [pid] }
  | .createChunks ids => { s with chunkRows := s.chunkRows ++ ids }
  | .planEmbeddings ids => { s with plannedRows := s.plannedRows ++ ids }
  | .completeEmbedding cid => { s with embeddedRows := s.embeddedRows ++ [cid] }
  | .tick ms => { s with elapsedMs := s.elapsedMs + ms }

def applyEvents (s : Store) (es : List IngestEvent) : Store :=
  es.foldl applyEvent s

/-- The progress object a poll of `GET /api/ingest/{job_id}` serves,
derived from persisted state. -/
def snapshotOf (s : Store) : ProgressJson where
  papers := [("openalex_found", (s.openalexRows.length : ℚ)),
             ("semantic_scholar_found", (s.s2Rows.length : ℚ)),
             ("papers_stored", (s.storedRows.length : ℚ)),
             ("duplicates_removed", (s.dupRows.length : ℚ))]
  chunks := [("total_created", (s.chunkRows.length : ℚ))]
  embeddings := [("completed", (s.embeddedRows.length : ℚ)),
                 ("total", (s.plannedRows.length : ℚ))]

/-- Counter-wise comparison of two persisted states: every progress counter
of the first is at most the corresponding counter of the second. -/
def storeLE (a b : Store) : Prop :=
  a.openalexRows.length ≤ b.openalexRows.length ∧
  a.s2Rows.length ≤ b.s2Rows.length ∧
  a.storedRows.length ≤ b.storedRows.length ∧
  a.dupRows.length ≤ b.dupRows.length ∧
  a.chunkRows.length ≤ b.chunkRows.length ∧
  a.plannedRows.length ≤ b.plannedRows.length ∧
  a.embeddedRows.length ≤ b.embeddedRows.length ∧
  a.elapsedMs ≤ b.elapsedMs

/-! ## Deduplication (C7)

The Deduplicator lives in the missing backend; it is modelled from §4.3 of
the spec: primary key is the normalized DOI (lowercased, URL prefix
stripped); with a DOI absent, fall back to the normalized title key
(lowercased, punctuation stripped, whitespace collapsed) with a ±1-year
tolerance; first-seen-wins for canonical metadata; subsequent matches only
contribute `externalIds` and refresh `citationCount` upward. -/

structure PaperCandidate where
  doi : Option String
  title : String
  year : Option Int
  citationCount : Nat
  externalId : String
  sourceOrigin : String
  deriving DecidableEq

structure CanonicalPaper where
  doi : Option String
  title : String
  year : Option Int
  citationCount : Nat
  externalIds : List String
  deriving DecidableEq

def startsWithChars : List Char → List Char → Bool
  | [], _ => true
  | _ :: _, [] => false
  | p :: ps, c :: cs => p = c && startsWithChars ps cs

/-- Modelled from the spec: lowercase the DOI and strip a leading
resolver-URL or `doi:` scheme. -/
def normalizeDoi (d : String) : List Char :=
  let low := d.toList.map Char.toLower
  if startsWithChars "https://doi.org/".toList low then low.drop 16
  else if startsWithChars "http://doi.org/".toList low then low.drop 15
  else if startsWithChars "doi:".toList low then low.drop 4
  else low

def squeezeSpaces : List Char → List Char
  | [] => []
  | [c] => [c]
  | a :: b :: r =>
      if a = ' ' && b = ' ' then squeezeSpaces (b :: r)
      else a :: squeezeSpaces (b :: r)

/-- Modelled from the spec: normalized-title key — lowercased, punctuation
stripped, whitespace collapsed. -/
def normTitleKey (t : String) : List Char :=
  jsTrim (squeezeSpaces
    (((t.toList.map Char.toLower).map fun c => if jsWhitespace c then ' ' else c).filter
      fun c => c.isAlphanum || c = ' '))

/-- ±1-year tolerance; a missing year on either side does not block the
title-key match. -/
def yearClose (a b : Option Int) : Bool :=
  match a, b with
  | some x, some y => (x - y).natAbs ≤ 1
  | _, _ => true

/-- Modelled from the spec: candidate-vs-canonical identity test — DOI
comparison when both carry one, title+year fallback otherwise. -/
def candMatches (c : PaperCandidate) (p : CanonicalPaper) : Bool :=
  match c.doi, p.doi with
  | some d1, some d2 => normalizeDoi d1 == normalizeDoi d2
  | _, _ => normTitleKey c.title == normTitleKey p.title && yearClose c.year p.year

/-- The canonical Paper created when a candidate is first seen. -/
def canonicalOf (c : PaperCandidate) : CanonicalPaper where
  doi := c.doi
  title := c.title
  year := c.year
  citationCount := c.citationCount
  externalIds := [c.externalId]

def replaceFirst (pred : CanonicalPaper → Bool) (newP : CanonicalPaper) :
    List CanonicalPaper → List CanonicalPaper
  | [] => []
  | p :: rest => if pred p then newP :: rest else p :: replaceFirst pred newP rest

structure MergeOutcome where
  accepted : CanonicalPaper
  isNew : Bool
  index : List CanonicalPaper
  deriving DecidableEq

/-- Modelled from the spec: `Merge(candidate)` against the per-job
in-memory index of accepted canonical Papers — a match contributes its
externalId and refreshes `citationCount` if higher; otherwise a new
canonical Paper is appended.  Total by construction (`Merge` never
fails). -/
def mergeCandidate (idx : List CanonicalPaper) (c : PaperCandidate) : MergeOutcome :=
  match idx.find? (fun p => candMatches c p) with
  | some p =>
      let merged : CanonicalPaper :=
        { p with
          externalIds :=
            if p.externalIds.contains c.externalId then p.externalIds
            else p.externalIds ++ [c.externalId]
          citationCount := max p.citationCount c.citationCount }
      { accepted := merged, isNew := false,
        index := replaceFirst (fun q => candMatches c q) merged idx }
  | none =>
      { accepted := canonicalOf c, isNew := true, index := idx ++ [canonicalOf c] }

/-- `Merge` applied `n` times with the same candidate. -/
def iterMergeIndex (c : PaperCandidate) : Nat → List CanonicalPaper → List CanonicalPaper
  | 0, idx => idx
  | n + 1, idx => iterMergeIndex c n (mergeCandidate idx c).index

/-- Number of stored canonical Papers a candidate matches. -/
def countMatches (c : PaperCandidate) (idx : List CanonicalPaper) : Nat :=
  (idx.filter fun p => candMatches c p).length

/-- C1 (counterexample): the claim that the documented progress shape
(`unique_papers` among the papers counters) carries "the same fields the
polling client reads" is false at the documented example itself: the
example contains `unique_papers = 61`, yet the client's unique-paper read
(`progress.papers.papers_stored`) comes back undefined on it. -/
theorem c1_documented_shape_not_read_by_client :
    lookupField documentedProgressExample.papers "unique_papers" = some 61 ∧
    (currentSearchOfProgress documentedProgressExample).newPapers = none := by
  constructor <;> rfl

/-- C1 (amended): the polling client reads exactly the fields
`papers.openalex_found`, `papers.semantic_scholar_found`,
`papers.papers_stored` (not `unique_papers`), `papers.duplicates_removed`,
`chunks.total_created`, `embeddings.completed` and `embeddings.total`
(`percent` is not read); on a response of that shape every read is defined
and the value is passed through unchanged. -/
theorem c1_client_reads_amended_shape (oa s2 stored dups chunkCount emb tot : ℚ) :
    currentSearchOfProgress (clientShapedProgress oa s2 stored dups chunkCount emb tot) =
      { openalexCount := some oa
        semanticScholarCount := some s2
        newPapers := some stored
        chunksCreated := some chunkCount
        duplicatesRemoved := some dups
        embeddingsCompleted := some emb
        embeddingsTotal := some tot } := by
  rfl

/-! ## Helper lemmas -/

theorem ragSourcesFrom_length (k : Nat) (cs : List RAGCitation) :
    (ragSourcesFrom k cs).length = cs.length := by
  induction cs generalizing k with
  | nil => rfl
  | cons c rest ih => simp [ragSourcesFrom, ih]

theorem ragSourcesFrom_getElem? (k i : Nat) (cs : List RAGCitation) :
    (ragSourcesFrom k cs)[i]? = (cs[i]?).map (ragSourceOfCitation (k + i)) := by
  induction cs generalizing k i with
  | nil => simp [ragSourcesFrom]
  | cons c rest ih =>
      cases i with
      | zero => simp [ragSourcesFrom]
      | succ j =>
          have harith : k + 1 + j = k + (j + 1) := by omega
          simp [ragSourcesFrom, ih (k + 1) j, harith]

theorem findSource_ragSourcesFrom (cs : List RAGCitation) :
    ∀ (k n : Nat), k + 1 ≤ n → n ≤ k + cs.length →
      ∃ s, findSource (ragSourcesFrom k cs) n = some s ∧
        (ragSourcesFrom k cs)[n - 1 - k]? = some s ∧ s.citationId = n := by
  induction cs with
  | nil => intro k n h1 h2; simp at h2; omega
  | cons c rest ih =>
      intro k n h1 h2
      by_cases hn : n = k + 1
      · refine ⟨ragSourceOfCitation k c, ?_, ?_, ?_⟩
        · rw [findSource, ragSourcesFrom, List.find?_cons_of_pos]
          simp [ragSourceOfCitation, hn]
        · have h0 : n - 1 - k = 0 := by omega
          simp [ragSourcesFrom, h0]
        · simp [ragSourceOfCitation, hn]
      · have h1x : k + 1 + 1 ≤ n := by omega
        have h2x : n ≤ k + 1 + rest.length := by
          simp only [List.length_cons] at h2; omega
        obtain ⟨s, hf, hg, hc⟩ := ih (k + 1) n h1x h2x
        refine ⟨s, ?_, ?_, hc⟩
        · rw [findSource, ragSourcesFrom, List.find?_cons_of_neg]
          · exact hf
          · simp [ragSourceOfCitation]
            omega
        · have hidx : n - 1 - k = (n - 1 - (k + 1)) + 1 := by omega
          rw [ragSourcesFrom, hidx]
          simpa using hg

/-- C2: every answer's sources get `citationId` exactly `1..N` in rank order
of the returned citation list (the element at index `i` has id `i + 1` and
carries the `i`-th citation's `paper_id`), and the id-based lookup that the
citation pills and tooltips use (`findSource`) resolves marker `n`
(for `1 ≤ n ≤ N`) to exactly the rank-`n` source — stable ids used
consistently within one answer. -/
theorem c2_citation_ids_are_rank_order (cs : List RAGCitation) :
    (ragSourcesOfCitations cs).length = cs.length ∧
    (∀ i s, (ragSourcesOfCitations cs)[i]? = some s →
        s.citationId = i + 1 ∧ ∃ c, cs[i]? = some c ∧ s.paperId = c.paper_id) ∧
    (∀ n, 1 ≤ n → n ≤ cs.length →
        ∃ s, findSource (ragSourcesOfCitations cs) n = some s ∧
          (ragSourcesOfCitations cs)[n - 1]? = some s ∧ s.citationId = n) := by
  refine ⟨ragSourcesFrom_length 0 cs, ?_, ?_⟩
  · intro i s hs
    rw [ragSourcesOfCitations, ragSourcesFrom_getElem?] at hs
    cases hc : cs[i]? with
    | none => rw [hc] at hs; simp at hs
    | some c =>
        rw [hc] at hs
        simp only [Option.map_some'] at hs
        obtain rfl : ragSourceOfCitation (0 + i) c = s := Option.some.inj hs
        refine ⟨?_, c, rfl, ?_⟩ <;> simp [ragSourceOfCitation]
  · intro n hn1 hn2
    have h := findSource_ragSourcesFrom cs 0 n (by omega) (by omega)
    simpa [ragSourcesOfCitations] using h

/-- C2 witness: at the concrete two-citation list, marker `2` resolves to a
source with `citationId = 2` stored at index `1`. -/
theorem c2_witness :
    ∃ s, findSource (ragSourcesOfCitations
        [⟨"p1", "T1", [], none⟩, ⟨"p2", "T2", [], none⟩]) 2 = some s ∧
      (ragSourcesOfCitations
        [⟨"p1", "T1", [], none⟩, ⟨"p2", "T2", [], none⟩])[2 - 1]? = some s ∧
      s.citationId = 2 :=
  (c2_citation_ids_are_rank_order _).2.2 2 (by decide) (by decide)

theorem dropWhile_forall_iff (p : Char → Bool) (l : List Char) :
    (∀ x ∈ l.dropWhile p, p x = true) ↔ (∀ x ∈ l, p x = true) := by
  induction l with
  | nil => simp
  | cons c rest ih =>
      by_cases hc : p c
      · simp [List.dropWhile_cons, hc, ih]
      · simp [List.dropWhile_cons, hc]

theorem jsTrim_eq_nil_iff (l : List Char) :
    jsTrim l = [] ↔ ∀ c ∈ l, jsWhitespace c = true := by
  rw [jsTrim]
  rw [List.reverse_eq_nil_iff, List.dropWhile_eq_nil_iff]
  constructor
  · intro h
    rw [← dropWhile_forall_iff jsWhitespace l]
    intro x hx
    exact h x (List.mem_reverse.mpr hx)
  · intro h x hx
    exact h x ((List.dropWhile_suffix jsWhitespace).subset (List.mem_reverse.mp hx))

theorem jsTrim_ne_nil_iff (l : List Char) :
    ¬ jsTrim l = [] ↔ ∃ c ∈ l, jsWhitespace c = false := by
  rw [jsTrim_eq_nil_iff]
  constructor
  · intro h
    push_neg at h
    obtain ⟨c, hc, hw⟩ := h
    exact ⟨c, hc, by simpa using hw⟩
  · rintro ⟨c, hc, hw⟩ hall
    have := hall c hc
    rw [this] at hw
    simp at hw

/-- C9: the chat input submits if and only if the typed value contains a
non-whitespace character and no request is in flight; the submitted query
is the input with surrounding whitespace trimmed (hence never empty), and
the input is cleared after a successful submit. -/
theorem c9_submit_iff_nonblank (value : List Char) (isLoading : Bool) :
    ((floatingInputSubmit value isLoading).isSome ↔
      ((∃ c ∈ value, jsWhitespace c = false) ∧ isLoading = false)) ∧
    (∀ q rest, floatingInputSubmit value isLoading = some (q, rest) →
      q = jsTrim value ∧ q ≠ [] ∧ rest = []) := by
  have hsome : (floatingInputSubmit value isLoading).isSome =
      (!(jsTrim value).isEmpty && !isLoading) := by
    rw [floatingInputSubmit]
    by_cases hok : !(jsTrim value).isEmpty && !isLoading
    · rw [if_pos hok, hok]
      rfl
    · rw [if_neg hok]
      cases hcond : (!(jsTrim value).isEmpty && !isLoading)
      · rfl
      · exact absurd hcond hok
  constructor
  · constructor
    · intro h
      have hb : (!(jsTrim value).isEmpty && !isLoading) = true := by
        rw [← hsome]; exact h
      rw [Bool.and_eq_true, Bool.not_eq_true', Bool.not_eq_true'] at hb
      obtain ⟨hE, hL⟩ := hb
      refine ⟨?_, hL⟩
      have hne : ¬ jsTrim value = [] := by
        intro hnil
        rw [hnil] at hE
        simp at hE
      exact (jsTrim_ne_nil_iff value).mp hne
    · rintro ⟨hex, hL⟩
      have hne := (jsTrim_ne_nil_iff value).mpr hex
      have hE : (jsTrim value).isEmpty = false := by
        cases hEE : (jsTrim value).isEmpty
        · rfl
        · exact absurd (List.isEmpty_iff.mp hEE) hne
      show (floatingInputSubmit value isLoading).isSome = true
      rw [hsome, hE, hL]
      rfl
  · intro q rest h
    rw [floatingInputSubmit] at h
    by_cases hok : !(jsTrim value).isEmpty && !isLoading
    · rw [if_pos hok] at h
      have h2 := Option.some.inj h
      injection h2 with hq hrest
      refine ⟨hq.symm, ?_, hrest.symm⟩
      rw [← hq]
      intro hnil
      rw [hnil] at hok
      simp at hok
    · rw [if_neg hok] at h
      exact absurd h (by simp)

/-- C9 witness: submitting `"  q "` while idle fires with the trimmed query
`"q"`, which is non-empty, and clears the input. -/
theorem c9_witness :
    "q".toList = jsTrim ("  q ".toList) ∧ "q".toList ≠ ([] : List Char) ∧
      ([] : List Char) = [] :=
  (c9_submit_iff_nonblank ("  q ".toList) false).2 ("q".toList) [] (by decide)

theorem roundHalfUp_le_100 (c t : Nat) (ht : 0 < t) (hct : c ≤ t) :
    roundHalfUp (c * 100) t ≤ 100 := by
  rw [roundHalfUp]
  have h2t : 0 < 2 * t := by omega
  have hlt : (2 * (c * 100) + t) / (2 * t) < 101 := by
    rw [Nat.div_lt_iff_lt_mul h2t]
    omega
  omega

/-- C6: every place the UI computes the embedding percentage guards the
denominator — with `total = 0` the page computes `0` and the sidebar either
computes `0` or does not render the bar at all (`none`) — and whenever
`completed ≤ total` the computed percentage is at most 100 (and, being a
natural number, at least 0), so no displayed percent is ever `NaN` or out
of range. -/
theorem c6_percent_well_defined (c t : Nat) (co : Option Nat) :
    embeddingProgressPct c 0 = 0 ∧
    sidebarEmbeddingPercent c 0 = 0 ∧
    sidebarBarPercent co (some 0) = none ∧
    sidebarBarPercent co none = none ∧
    (c ≤ t → embeddingProgressPct c t ≤ 100) ∧
    (c ≤ t → sidebarEmbeddingPercent c t ≤ 100) ∧
    (co.getD 0 ≤ t → ∀ p, sidebarBarPercent co (some t) = some p → p ≤ 100) := by
  refine ⟨rfl, rfl, rfl, rfl, ?_, ?_, ?_⟩
  · intro h
    rw [embeddingProgressPct]
    by_cases ht : 0 < t
    · simpa [ht] using roundHalfUp_le_100 c t ht h
    · simp [ht]
  · intro h
    rw [sidebarEmbeddingPercent]
    by_cases ht : 0 < t
    · simpa [ht] using roundHalfUp_le_100 c t ht h
    · simp [ht]
  · intro hle p hp
    rw [sidebarBarPercent] at hp
    by_cases ht : 0 < t
    · rw [if_pos ht] at hp
      rw [← Option.some.inj hp]
      exact roundHalfUp_le_100 _ t ht hle
    · rw [if_neg ht] at hp
      exact absurd hp (by simp)

/-- C6 witness: concrete guarded percentages stay within bounds
(`1/2 → 50%`, `3/4 → 75%`, bar percent `2/4 → 50%`). -/
theorem c6_witness :
    embeddingProgressPct 1 2 ≤ 100 ∧ sidebarEmbeddingPercent 3 4 ≤ 100 ∧ (50 : Nat) ≤ 100 :=
  ⟨(c6_percent_well_defined 1 2 (some 1)).2.2.2.2.1 (by decide),
   (c6_percent_well_defined 3 4 (some 1)).2.2.2.2.2.1 (by decide),
   (c6_percent_well_defined 2 4 (some 2)).2.2.2.2.2.2 (by decide) 50 (by decide)⟩

theorem joinParts_append (xs ys : List AnswerPart) :
    joinParts (xs ++ ys) = joinParts xs ++ joinParts ys :=
  List.flatMap_append xs ys _

theorem joinParts_flushText (acc : List Char) :
    joinParts (flushText acc) = acc.reverse := by
  rw [flushText]
  by_cases h : acc = []
  · simp [h, joinParts]
  · simp [h, joinParts]

theorem joinParts_splitLoop (rest : List Char) :
    ∀ (textAcc : List Char) (pending : Option (List Char)),
      joinParts (splitLoop rest textAcc pending) =
        textAcc.reverse ++
          (match pending with
           | none => []
           | some ds => '[' :: ds.reverse) ++ rest := by
  induction rest with
  | nil =>
      intro textAcc pending
      cases pending with
      | none => simp [splitLoop, joinParts_flushText]
      | some ds => simp [splitLoop, joinParts_flushText, List.reverse_append]
  | cons c rest ih =>
      intro textAcc pending
      cases pending with
      | none =>
          by_cases hc : c = '['
          · subst hc
            simp [splitLoop, ih]
          · simp [splitLoop, hc, ih]
      | some ds =>
          by_cases hd : jsIsDigit c
          · simp [splitLoop, hd, ih, List.append_assoc]
          · by_cases hc : c = ']'
            · subst hc
              by_cases hds : ds = []
              · subst hds
                simp [splitLoop, hd, ih]
              · rw [splitLoop]
                rw [if_neg (by simp [hd]), if_pos rfl, if_neg hds]
                rw [joinParts_append]
                have hcons : joinParts (AnswerPart.citation ds.reverse :: splitLoop rest [] none) =
                    ('[' :: ds.reverse ++ [']']) ++ joinParts (splitLoop rest [] none) := by
                  simp [joinParts]
                rw [hcons, joinParts_flushText, ih [] none]
                simp [List.append_assoc]
            · by_cases hob : c = '['
              · subst hob
                rw [splitLoop]
                rw [if_neg (by simp [hd]), if_neg (by simp), if_pos rfl]
                simp [ih, List.reverse_append, List.append_assoc]
              · rw [splitLoop]
                rw [if_neg (by simp [hd]), if_neg (by simp [hc]), if_neg (by simp [hob])]
                simp [ih, List.reverse_append, List.append_assoc]

/-- C10: citation rendering is total — splitting an answer text loses no
characters (joining the split parts reproduces the text exactly, so all
text outside `[n]` markers is rendered unchanged as spans and every marker
is accounted for), every citation part renders as a pill showing its
number with the source whose `citationId` matches, or with a placeholder
source carrying that number and empty title/authors/links when no source
matches, and plain parts render as unchanged spans. -/
theorem c10_render_total (sources : List Source) (l : List Char) :
    joinParts (splitCitations l) = l ∧
    renderContentWithCitations sources l = (splitCitations l).map (renderPart sources) ∧
    (∀ s, AnswerPart.text s ∈ splitCitations l →
      renderPart sources (AnswerPart.text s) = Rendered.span s) ∧
    (∀ ds, AnswerPart.citation ds ∈ splitCitations l →
      renderPart sources (AnswerPart.citation ds) =
        Rendered.pill (digitsToNat ds)
          ((findSource sources (digitsToNat ds)).getD
            (placeholderSource (digitsToNat ds)))) ∧
    (∀ n, findSource sources n = none →
      (placeholderSource n).citationId = n ∧ (placeholderSource n).title = "" ∧
      (placeholderSource n).authors = [] ∧ (placeholderSource n).doi = none ∧
      (placeholderSource n).url = none) := by
  refine ⟨?_, rfl, ?_, ?_, ?_⟩
  · have h := joinParts_splitLoop l [] none
    simpa [splitCitations] using h
  · intro s _
    rfl
  · intro ds _
    rfl
  · intro n _
    exact ⟨rfl, rfl, rfl, rfl, rfl⟩

/-- C10 witness: on the concrete text `"See [1] and [12]."` with an empty
source list, the split round-trips, and the marker `[12]` renders as a
pill numbered 12 backed by the placeholder source. -/
theorem c10_witness :
    joinParts (splitCitations ("See [1] and [12].".toList)) = "See [1] and [12].".toList ∧
    renderPart [] (AnswerPart.citation ['1', '2']) =
      Rendered.pill (digitsToNat ['1', '2'])
        ((findSource [] (digitsToNat ['1', '2'])).getD
          (placeholderSource (digitsToNat ['1', '2']))) :=
  ⟨(c10_render_total [] _).1,
   (c10_render_total [] ("See [1] and [12].".toList)).2.2.2.1 ['1', '2'] (by decide)⟩

theorem storeLE_applyEvent (s : Store) (e : IngestEvent) :
    storeLE s (applyEvent s e) := by
  cases e <;> simp [applyEvent, storeLE, List.length_append]

theorem storeLE_trans {a b c : Store} (h1 : storeLE a b) (h2 : storeLE b c) :
    storeLE a c := by
  rw [storeLE] at *
  omega

theorem storeLE_applyEvents (s : Store) (es : List IngestEvent) :
    storeLE s (applyEvents s es) := by
  induction es generalizing s with
  | nil => simp [applyEvents, storeLE]
  | cons e es ih =>
      have h1 := storeLE_applyEvent s e
      have h2 := ih (applyEvent s e)
      rw [applyEvents, List.foldl_cons]
      exact storeLE_trans h1 h2

/-- C3: over any sequence of pipeline events, every progress counter served
to pollers (papers found per source, papers stored, duplicates removed,
chunks created, embeddings completed/total, elapsed time) is computed from
persisted rows that only grow, so no later snapshot reports a counter
lower than an earlier one; and the polling client copies each counter it
reads out of the snapshot unchanged into its displayed stats. -/
theorem c3_progress_monotonic (s : Store) (es : List IngestEvent) :
    storeLE s (applyEvents s es) ∧
    currentSearchOfProgress (snapshotOf s) =
      { openalexCount := some (s.openalexRows.length : ℚ)
        semanticScholarCount := some (s.s2Rows.length : ℚ)
        newPapers := some (s.storedRows.length : ℚ)
        chunksCreated := some (s.chunkRows.length : ℚ)
        duplicatesRemoved := some (s.dupRows.length : ℚ)
        embeddingsCompleted := some (s.embeddedRows.length : ℚ)
        embeddingsTotal := some (s.plannedRows.length : ℚ) } :=
  ⟨storeLE_applyEvents s es, rfl⟩

/-- C4: if at least one requested source succeeds the job completes with
every failed source recorded as degraded and no job-level error; the job
only transitions to `failed` — with an aggregated error present — when
every requested source fails. -/
theorem c4_partial_success (outcomes : List SourceOutcome) :
    ((∃ o ∈ outcomes, o.succeeded = true) →
      (aggregateOutcome outcomes).finalStage = JobStage.completed ∧
      (aggregateOutcome outcomes).error = none ∧
      ∀ o ∈ outcomes, o.succeeded = false →
        o.source ∈ (aggregateOutcome outcomes).degraded) ∧
    ((∀ o ∈ outcomes, o.succeeded = false) →
      (aggregateOutcome outcomes).finalStage = JobStage.failed ∧
      (aggregateOutcome outcomes).error.isSome = true) ∧
    ((aggregateOutcome outcomes).finalStage = JobStage.failed →
      ∀ o ∈ outcomes, o.succeeded = false) := by
  by_cases hany : outcomes.any (fun o => o.succeeded) = true
  · refine ⟨?_, ?_, ?_⟩
    · intro _
      refine ⟨?_, ?_, ?_⟩
      · simp [aggregateOutcome, hany]
      · simp [aggregateOutcome, hany]
      · intro o ho hfail
        simp only [aggregateOutcome, hany, if_pos]
        simp only [List.mem_map, List.mem_filter]
        exact ⟨o, ⟨ho, by simp [hfail]⟩, rfl⟩
    · intro hall
      obtain ⟨x, hx, hsucc⟩ := List.any_eq_true.mp hany
      have := hall x hx
      rw [this] at hsucc
      simp at hsucc
    · intro hfailed
      have : (aggregateOutcome outcomes).finalStage = JobStage.completed := by
        simp [aggregateOutcome, hany]
      rw [this] at hfailed
      simp at hfailed
  · have hanyf : outcomes.any (fun o => o.succeeded) = false := by
      cases h : outcomes.any (fun o => o.succeeded)
      · rfl
      · exact absurd h hany
    refine ⟨?_, ?_, ?_⟩
    · rintro ⟨o, ho, hsucc⟩
      have := List.any_eq_true.mpr ⟨o, ho, hsucc⟩
      exact absurd this hany
    · intro _
      constructor
      · simp [aggregateOutcome, hanyf]
      · simp [aggregateOutcome, hanyf]
    · intro _
      intro o ho
      have := List.any_eq_false.mp hanyf o ho
      cases h : o.succeeded
      · rfl
      · exact absurd h this

/-- C4 witness: with openalex succeeding and semantic_scholar failing, the
job completes and semantic_scholar is recorded as degraded. -/
theorem c4_witness :
    (aggregateOutcome [⟨"openalex", true, ""⟩,
        ⟨"semantic_scholar", false, "HTTP 503"⟩]).finalStage = JobStage.completed ∧
    "semantic_scholar" ∈ (aggregateOutcome [⟨"openalex", true, ""⟩,
        ⟨"semantic_scholar", false, "HTTP 503"⟩]).degraded := by
  have h := (c4_partial_success [⟨"openalex", true, ""⟩,
      ⟨"semantic_scholar", false, "HTTP 503"⟩]).1 (by decide)
  exact ⟨h.1, h.2.2 ⟨"semantic_scholar", false, "HTTP 503"⟩ (by decide) rfl⟩

/-- C5: the modelled job state machine only moves forward (every legal
transition strictly increases the stage rank), `completed` and `failed`
have no outgoing transitions so once a poll returns either the status
never changes again (a valid status chain starting at a terminal status is
that single status), and the polling client treats exactly the strings
`"completed"` and `"failed"` — and no others — as terminal, clearing its
poll interval, loading flag and current job id exactly then. -/
theorem c5_status_lifecycle :
    (∀ s t, stageStep s t = true → stageRank s < stageRank t) ∧
    (∀ t, stageStep JobStage.completed t = false ∧ stageStep JobStage.failed t = false) ∧
    (∀ s rest, validChain (s :: rest) = true →
      (s = JobStage.completed ∨ s = JobStage.failed) → rest = []) ∧
    (∀ str, isTerminalStatus str = true ↔ (str = "completed" ∨ str = "failed")) ∧
    (∀ st str, isTerminalStatus str = true →
      pollTerminalTransition st str =
        { pollingActive := false, currentJobId := none, isLoading := false }) ∧
    (∀ st str, isTerminalStatus str = false → pollTerminalTransition st str = st) := by
  refine ⟨by decide, by decide, ?_, ?_, ?_, ?_⟩
  · intro s rest hchain hterm
    cases rest with
    | nil => rfl
    | cons b r =>
        rw [validChain, Bool.and_eq_true] at hchain
        obtain ⟨hstep, _⟩ := hchain
        rcases hterm with h | h <;> subst h <;> cases b <;> simp [stageStep] at hstep
  · intro str
    rw [isTerminalStatus, Bool.or_eq_true]
    constructor
    · rintro (h | h)
      · exact Or.inl (by simpa using h)
      · exact Or.inr (by simpa using h)
    · rintro (h | h) <;> simp [h]
  · intro st str h
    rw [pollTerminalTransition, if_pos h]
  · intro st str h
    rw [pollTerminalTransition, if_neg (by simp [h])]

/-- C5 witness: a legal step raises the rank, `"completed"` is terminal and
clears the loop state, `"embedding"` is not terminal and leaves it
untouched. -/
theorem c5_witness :
    stageRank JobStage.queued < stageRank JobStage.parsing ∧
    isTerminalStatus "completed" = true ∧
    pollTerminalTransition ⟨true, some "job-1", true⟩ "completed" =
      { pollingActive := false, currentJobId := none, isLoading := false } ∧
    pollTerminalTransition ⟨true, some "job-1", true⟩ "embedding" =
      ⟨true, some "job-1", true⟩ :=
  ⟨c5_status_lifecycle.1 _ _ (by decide),
   (c5_status_lifecycle.2.2.2.1 "completed").mpr (Or.inl rfl),
   c5_status_lifecycle.2.2.2.2.1 _ "completed" (by decide),
   c5_status_lifecycle.2.2.2.2.2 _ "embedding" (by decide)⟩

theorem candMatches_update (c : PaperCandidate) (p : CanonicalPaper)
    (ids : List String) (cc : Nat) :
    candMatches c { p with externalIds := ids, citationCount := cc } = candMatches c p :=
  rfl

theorem candMatches_canonicalOf (c : PaperCandidate) :
    candMatches c (canonicalOf c) = true := by
  cases hd : c.doi with
  | some d => simp [candMatches, canonicalOf, hd]
  | none =>
      cases hy : c.year with
      | some y => simp [candMatches, canonicalOf, hd, yearClose, hy]
      | none => simp [candMatches, canonicalOf, hd, yearClose, hy]

theorem length_replaceFirst (pred : CanonicalPaper → Bool) (newP : CanonicalPaper)
    (idx : List CanonicalPaper) :
    (replaceFirst pred newP idx).length = idx.length := by
  induction idx with
  | nil => rfl
  | cons p rest ih =>
      by_cases hp : pred p <;> simp [replaceFirst, hp, ih]

theorem countMatches_append (c : PaperCandidate) (xs ys : List CanonicalPaper) :
    countMatches c (xs ++ ys) = countMatches c xs + countMatches c ys := by
  simp [countMatches, List.filter_append]

theorem countMatches_replaceFirst (c : PaperCandidate) (newP : CanonicalPaper)
    (idx : List CanonicalPaper) (h : candMatches c newP = true) :
    countMatches c (replaceFirst (fun q => candMatches c q) newP idx) = countMatches c idx := by
  induction idx with
  | nil => rfl
  | cons p rest ih =>
      by_cases hp : candMatches c p
      · rw [replaceFirst, if_pos hp]
        simp [countMatches, List.filter_cons, h, hp]
      · rw [replaceFirst, if_neg hp]
        simp only [countMatches, List.filter_cons, hp, if_neg, Bool.false_eq_true,
          ite_false]
        simpa [countMatches] using ih

theorem countMatches_eq_zero_iff (c : PaperCandidate) (idx : List CanonicalPaper) :
    countMatches c idx = 0 ↔ idx.find? (fun p => candMatches c p) = none := by
  rw [countMatches, List.length_eq_zero, List.filter_eq_nil_iff, List.find?_eq_none]

theorem mergeCandidate_count_one (c : PaperCandidate) (idx : List CanonicalPaper)
    (h : countMatches c idx = 1) :
    countMatches c (mergeCandidate idx c).index = 1 ∧
    (mergeCandidate idx c).index.length = idx.length ∧
    (mergeCandidate idx c).isNew = false := by
  have hne : idx.find? (fun p => candMatches c p) ≠ none := by
    intro h0
    rw [← countMatches_eq_zero_iff] at h0
    omega
  obtain ⟨p, hp⟩ := Option.ne_none_iff_exists'.mp hne
  have hmatch : candMatches c p = true := List.find?_some hp
  have hm : candMatches c
      { p with
        externalIds :=
          if p.externalIds.contains c.externalId then p.externalIds
          else p.externalIds ++ [c.externalId]
        citationCount := max p.citationCount c.citationCount } = true := by
    rw [candMatches_update]
    exact hmatch
  simp only [mergeCandidate, hp]
  refine ⟨?_, ?_, trivial⟩
  · rw [countMatches_replaceFirst c _ idx hm]
    exact h
  · exact length_replaceFirst _ _ idx

theorem mergeCandidate_count_zero (c : PaperCandidate) (idx : List CanonicalPaper)
    (h : countMatches c idx = 0) :
    countMatches c (mergeCandidate idx c).index = 1 ∧
    (mergeCandidate idx c).index.length = idx.length + 1 ∧
    (mergeCandidate idx c).isNew = true := by
  have hf := (countMatches_eq_zero_iff c idx).mp h
  simp only [mergeCandidate, hf]
  refine ⟨?_, by simp, trivial⟩
  rw [countMatches_append, h]
  simp [countMatches, List.filter_cons, candMatches_canonicalOf c]

theorem iterMerge_keeps_one (c : PaperCandidate) :
    ∀ (n : Nat) (idx : List CanonicalPaper), countMatches c idx = 1 →
      countMatches c (iterMergeIndex c n idx) = 1 ∧
      (iterMergeIndex c n idx).length = idx.length
  | 0, idx, h => ⟨h, rfl⟩
  | m + 1, idx, h => by
      obtain ⟨h1, h2, _⟩ := mergeCandidate_count_one c idx h
      obtain ⟨g1, g2⟩ := iterMerge_keeps_one c m _ h1
      rw [iterMergeIndex]
      exact ⟨g1, by rw [g2, h2]⟩

/-- C7: deduplication is idempotent — starting from an index with no
canonical Paper matching the candidate, applying `Merge` `n ≥ 1` times on
the identical candidate (same DOI, same title, same year) stores exactly
one matching canonical Paper and grows the index by exactly one entry in
total; the first application reports `isNew`, and every application
against an index already holding the match reports `isNew = false`
(`Merge` itself is a total function — it never fails). -/
theorem c7_merge_idempotent (idx : List CanonicalPaper) (c : PaperCandidate) (n : Nat)
    (h0 : countMatches c idx = 0) (hn : 1 ≤ n) :
    countMatches c (iterMergeIndex c n idx) = 1 ∧
    (iterMergeIndex c n idx).length = idx.length + 1 ∧
    (mergeCandidate idx c).isNew = true ∧
    (∀ idx2, countMatches c idx2 = 1 → (mergeCandidate idx2 c).isNew = false) := by
  obtain ⟨m, rfl⟩ : ∃ m, n = m + 1 := ⟨n - 1, by omega⟩
  obtain ⟨h1, h2, h3⟩ := mergeCandidate_count_zero c idx h0
  rw [iterMergeIndex]
  obtain ⟨g1, g2⟩ := iterMerge_keeps_one c m _ h1
  refine ⟨g1, by rw [g2, h2], h3, ?_⟩
  intro idx2 hone
  exact (mergeCandidate_count_one c idx2 hone).2.2

/-- C7 witness: merging the same DOI-carrying candidate three times into an
empty index yields exactly one stored canonical Paper. -/
theorem c7_witness :
    countMatches ⟨some "10.1/x", "CRISPR gene editing", some 2020, 5, "oa:1", "openalex"⟩
      (iterMergeIndex ⟨some "10.1/x", "CRISPR gene editing", some 2020, 5, "oa:1", "openalex"⟩
        3 []) = 1 ∧
    (iterMergeIndex ⟨some "10.1/x", "CRISPR gene editing", some 2020, 5, "oa:1", "openalex"⟩
        3 []).length = 1 := by
  have h := c7_merge_idempotent []
      ⟨some "10.1/x", "CRISPR gene editing", some 2020, 5, "oa:1", "openalex"⟩ 3 rfl
      (by decide)
  exact ⟨h.1, by simpa using h.2.1⟩

theorem selectedSources_eq_nil_iff (s : Settings) :
    selectedSources s = [] ↔
      (s.openalexEnabled = some false ∧ s.semanticScholarEnabled = some false) := by
  by_cases h1 : s.openalexEnabled = some false <;>
    by_cases h2 : s.semanticScholarEnabled = some false <;>
      simp [selectedSources, h1, h2]

/-- C8: the ingest request body carries exactly the documented fields —
`query` is passed through verbatim; `sources` is omitted (`none`, not an
empty list) exactly when the saved settings disable both sources, and any
sent list is non-empty; `max_results_per_source` defaults to 30 when no
settings are saved, when `papersPerQuery` is unset, or when it is the
JS-falsy 0, and otherwise equals `papersPerQuery`; the client reads the
new job's identifier from the response's `job_id` field. -/
theorem c8_ingest_request_shape (q : String) (saved : Option Settings) :
    (buildIngestRequest q saved).query = q ∧
    ((buildIngestRequest q saved).sources = none ↔
      ∃ s, saved = some s ∧ s.openalexEnabled = some false ∧
        s.semanticScholarEnabled = some false) ∧
    (∀ xs, (buildIngestRequest q saved).sources = some xs → xs ≠ []) ∧
    (saved = none → (buildIngestRequest q saved).max_results_per_source = 30) ∧
    (∀ s, saved = some s → s.papersPerQuery = none →
      (buildIngestRequest q saved).max_results_per_source = 30) ∧
    (∀ s, saved = some s → s.papersPerQuery = some 0 →
      (buildIngestRequest q saved).max_results_per_source = 30) ∧
    (∀ s n, saved = some s → s.papersPerQuery = some n → 0 < n →
      (buildIngestRequest q saved).max_results_per_source = n) ∧
    (∀ r : StartIngestResponse, jobIdOfStartResponse r = r.job_id) := by
  refine ⟨rfl, ?_, ?_, ?_, ?_, ?_, ?_, fun r => rfl⟩
  · cases saved with
    | none =>
        constructor
        · intro h
          exfalso
          simp [buildIngestRequest, defaultSettings, selectedSources] at h
        · rintro ⟨s, hs, -, -⟩
          exact absurd hs (by simp)
    | some s =>
        constructor
        · intro h
          refine ⟨s, rfl, (selectedSources_eq_nil_iff s).mp ?_⟩
          by_contra hne
          have hlen : (selectedSources s).length > 0 :=
            List.length_pos.mpr hne
          simp only [buildIngestRequest, Option.getD_some, if_pos hlen] at h
          exact absurd h (by simp)
        · rintro ⟨s2, hs2, h1, h2⟩
          injection hs2 with hs2
          subst hs2
          have hnil : selectedSources s = [] :=
            (selectedSources_eq_nil_iff s).mpr ⟨h1, h2⟩
          simp [buildIngestRequest, hnil]
  · intro xs hxs
    by_cases hlen : (selectedSources (saved.getD defaultSettings)).length > 0
    · simp only [buildIngestRequest, if_pos hlen] at hxs
      rw [← Option.some.inj hxs]
      intro hnil
      rw [hnil] at hlen
      simp at hlen
    · simp only [buildIngestRequest, if_neg hlen] at hxs
      exact absurd hxs (by simp)
  · intro h
    subst h
    rfl
  · intro s hs hp
    subst hs
    simp [buildIngestRequest, hp]
  · intro s hs hp
    subst hs
    simp [buildIngestRequest, hp]
  · intro s n hs hp hpos
    subst hs
    simp only [buildIngestRequest, Option.getD_some, hp]
    rw [if_neg (by omega)]

/-- C8 witness: with both sources disabled the body omits `sources`
entirely, and with no saved settings `max_results_per_source` is 30. -/
theorem c8_witness :
    (buildIngestRequest "q" (some ⟨some 0, some false, some false⟩)).sources = none ∧
    (buildIngestRequest "q" none).max_results_per_source = 30 :=
  ⟨(c8_ingest_request_shape "q" (some ⟨some 0, some false, some false⟩)).2.1.mpr
      ⟨⟨some 0, some false, some false⟩, rfl, rfl, rfl⟩,
   (c8_ingest_request_shape "q" none).2.2.2.1 rfl⟩
